import Mathlib

/-!
Verification development for the live tutoring session client
(`useSessionSocket` hook): PCM encode/decode, microphone chunker,
playback scheduler, session socket state machine, transcript log and the
derived live-state label.  All definitions are shallow embeddings of the
source functions; machine floats are modelled by exact rationals and the
JavaScript `Int16Array` store by truncation toward zero followed by a
16-bit wrap.
-/

namespace FaheemLive

/-- `MIC_SAMPLE_RATE` constant: Gemini input, 16 kHz. -/
def MIC_SAMPLE_RATE : ℕ := 16000

/-- `OUT_SAMPLE_RATE` constant: Gemini output, 24 kHz. -/
def OUT_SAMPLE_RATE : ℕ := 24000

/-- `SAMPLES_PER_CHUNK = Math.floor((MIC_SAMPLE_RATE * 100) / 1000)`, 100 ms of audio. -/
def SAMPLES_PER_CHUNK : ℕ := MIC_SAMPLE_RATE * 100 / 1000

/-- `SessionStatus` union type of the source. -/
inductive SessionStatus
  | idle
  | connecting
  | connected
  | error
deriving DecidableEq

/-- `LiveState` union type of the source. -/
inductive LiveState
  | idle
  | connecting
  | connected
  | thinking
  | seeing
  | listening
  | speaking
  | error
deriving DecidableEq

/-- Transcript entry role (`"tutor" | "student"`). -/
inductive Role
  | tutor
  | student
deriving DecidableEq

/-- `TranscriptEntry` record (`imageUrl` is optional). -/
structure TranscriptEntry where
  role : Role
  text : String
  timestamp : String
  imageUrl : Option String := none
deriving DecidableEq

/-- The `lastSentType` state: `"text" | "image"`. -/
inductive SentType
  | text
  | image
deriving DecidableEq

/-- The mutable state held by the `useSessionSocket` hook.  `ws` models
`wsRef.current`: `none` when the ref is null, `some b` when a socket exists
with `b = (readyState == OPEN)`.  `mediaStream` and `playbackCtx` model
whether `mediaStreamRef.current` and `playbackCtxRef.current` are non-null;
`nextPlayTime` models `nextPlayTimeRef.current`.  (The 600 ms speaking
debounce timer and the capture `AudioContext` handle carry no session
logic relevant to the claims and are not modelled.) -/
structure SessionState where
  status : SessionStatus
  transcript : List TranscriptEntry
  isThinking : Bool
  lastSentType : SentType
  voiceActive : Bool
  isSpeaking : Bool
  ws : Option Bool
  mediaStream : Bool
  playbackCtx : Bool
  nextPlayTime : ℚ
deriving DecidableEq

/-- Truncation toward zero, the rounding mode JavaScript applies when a
number is stored into an `Int16Array`. -/
def truncQ (q : ℚ) : ℤ := if 0 ≤ q then ⌊q⌋ else ⌈q⌉

/-- The 16-bit signed wrap that completes the JavaScript `ToInt16`
conversion on an `Int16Array` store. -/
def toInt16 (n : ℤ) : ℤ := (n + 32768) % 65536 - 32768

/-- PCM encode of one sample, from the mic-capture loop:
`clamped = Math.max(-1, Math.min(1, chunk[i])); int16[offset++] = clamped * 32767`. -/
def encodeSample (x : ℚ) : ℤ := toInt16 (truncQ (max (-1) (min 1 x) * 32767))

/-- PCM decode of one sample, from the playback loop:
`float32[i] = int16[i] / 32768.0`. -/
def decodeSample (v : ℤ) : ℚ := (v : ℚ) / 32768

/-- Encode a whole buffer of float samples (the inner double loop over the
accumulated frames writes exactly the clamp-scale-truncate of each sample in
order). -/
def encodeList (xs : List ℚ) : List ℤ := xs.map encodeSample

/-- `buf.duration` of a playback buffer holding `n` samples at
`OUT_SAMPLE_RATE`: `n / 24000` seconds. -/
def chunkDurationSeconds (n : ℕ) : ℚ := (n : ℚ) / (OUT_SAMPLE_RATE : ℚ)

/-- `scheduleAudioChunk(pcmBytes)`.  The chunk is the int16 PCM content of
the frame; `clock` is `ctx.currentTime` at the moment of the call.  Returns
the updated state and the scheduled start time (`none` when
`playbackCtxRef.current` is null and the chunk is dropped).  Mirrors:
guard on the context; `setIsSpeaking(true)`; decode to float32; create the
buffer; `t = Math.max(ctx.currentTime, nextPlayTimeRef.current)`;
`source.start(t)`; `nextPlayTimeRef.current = t + buf.duration`. -/
def scheduleAudioChunk (st : SessionState) (clock : ℚ) (pcm : List ℤ) :
    SessionState × Option ℚ :=
  if st.playbackCtx = true then
    let float32 := pcm.map decodeSample
    let t := max clock st.nextPlayTime
    ({ st with
        isSpeaking := true,
        nextPlayTime := t + (float32.length : ℚ) / (OUT_SAMPLE_RATE : ℚ) },
     some t)
  else
    (st, none)

/-- Feed a list of `(arrival clock time, pcm chunk)` pairs to the playback
scheduler in order, collecting the scheduled start times. -/
def scheduleRun (st : SessionState) : List (ℚ × List ℤ) → SessionState × List ℚ
  | [] => (st, [])
  | (c, pcm) :: rest =>
      let r := scheduleAudioChunk st c pcm
      let r2 := scheduleRun r.1 rest
      (r2.1, r.2.toList ++ r2.2)

/-- Closed form of the start times produced by `scheduleRun` from a given
`nextPlayTime` (proof device for the scheduler claims). -/
def startsFrom (next : ℚ) : List (ℚ × List ℤ) → List ℚ
  | [] => []
  | (c, pcm) :: rest =>
      max c next :: startsFrom (max c next + chunkDurationSeconds pcm.length) rest

/-- Inbound structured (JSON-parsed) message, classified exactly as the
`ws.onmessage` branch guards classify it: `statusMsg v` for
`msg.type === "status"` with string `value v`; `messageMsg t` for
`msg.type === "message"` with string `text t`; `recapMsg s` for
`msg.type === "recap"` with truthy `data` whose `summary` field is the
string `s` when present; `errorMsg v` for `msg.type === "error"` with
string `value v`; `unknown` for every other parsed shape (no branch
matches, nothing happens). -/
inductive ParsedMsg
  | statusMsg (value : String)
  | messageMsg (text : String)
  | recapMsg (summary : Option String)
  | errorMsg (value : String)
  | unknown
deriving DecidableEq

/-- One inbound wire frame: a binary PCM frame, a text frame that fails
`JSON.parse`, or a parsed structured message. -/
inductive InboundFrame
  | binary (pcm : List ℤ)
  | textUnparsable (raw : String)
  | textParsed (msg : ParsedMsg)
deriving DecidableEq

/-- Outbound wire messages (`ws.send` payloads). -/
inductive OutMsg
  | audio (pcm : List ℤ)
  | textMsg (text mode : String)
  | imageMsg (mimeType data caption mode : String)
  | endToken
deriving DecidableEq

/-- Externally observable transport actions an operation performs. -/
inductive Action
  | send (m : OutMsg)
  | openConnection
  | closeConnection
deriving DecidableEq

/-- The opening tutor greeting appended on `status/connected`. -/
def greeting : String :=
  "Hi! I\x27m Faheem, your math tutor — what problem are we solving today?"

/-- `stopVoiceCleanup()`: releases the media stream, processor and both
audio contexts, clears the speaking timer, and resets the voice flags. -/
def stopVoiceCleanup (st : SessionState) : SessionState :=
  { st with
      mediaStream := false,
      playbackCtx := false,
      voiceActive := false,
      isSpeaking := false }

/-- `startSession()`: a no-op when `wsRef.current` is non-null; otherwise
sets status to `connecting` and opens a new (not yet OPEN) socket. -/
def startSession (st : SessionState) : SessionState × List Action :=
  if st.ws.isSome then
    (st, [])
  else
    ({ st with status := .connecting, ws := some false }, [.openConnection])

/-- `stopSession()`: voice cleanup; if the socket exists and is OPEN, send
the literal `"END"` control token and close it; null the ref; status to
`idle`; clear the thinking flag. -/
def stopSession (st : SessionState) : SessionState × List Action :=
  let st1 := stopVoiceCleanup st
  ({ st1 with ws := none, status := .idle, isThinking := false },
   if st.ws = some true then [.send .endToken, .closeConnection] else [])

/-- `ws.onclose` handler: voice cleanup, status `idle`, thinking cleared,
socket ref nulled. -/
def onWsClose (st : SessionState) : SessionState :=
  { stopVoiceCleanup st with status := .idle, isThinking := false, ws := none }

/-- `ws.onerror` handler: voice cleanup, status `error`, thinking cleared,
socket ref nulled. -/
def onWsError (st : SessionState) : SessionState :=
  { stopVoiceCleanup st with status := .error, isThinking := false, ws := none }

/-- `startVoice()`: ignored unless the socket is OPEN and no capture is
running; `ok` is whether `getUserMedia` succeeded (permission); on success
the media stream and both audio contexts are installed, `nextPlayTime` is
reset to the new playback clock (`clock`), and capture becomes active.  On
failure nothing changes. -/
def startVoice (st : SessionState) (ok : Bool) (clock : ℚ) : SessionState :=
  if st.ws = some true then
    if st.mediaStream then st
    else if ok then
      { st with
          mediaStream := true,
          playbackCtx := true,
          nextPlayTime := clock,
          voiceActive := true }
    else st
  else st

/-- `sendText(text, mode)`: guard on an OPEN socket; append the optimistic
student entry; set the thinking flag and `lastSentType`; send the JSON
frame. -/
def sendText (st : SessionState) (text mode ts : String) :
    SessionState × List Action :=
  if st.ws = some true then
    ({ st with
        transcript := st.transcript ++ [⟨.student, text, ts, none⟩],
        isThinking := true,
        lastSentType := .text },
     [.send (.textMsg text mode)])
  else
    (st, [])

/-- `sendImage(file, caption, mode)`: guard on an OPEN socket; append the
optimistic student entry (`caption || "📷"`, with the local object URL);
set thinking and `lastSentType`; then either send the JSON frame when the
asynchronous `fileToBase64` succeeded (`encoded = some data`) or, on
failure, clear the thinking flag and send nothing. -/
def sendImage (st : SessionState) (caption mode mimeType imageUrl ts : String)
    (encoded : Option String) : SessionState × List Action :=
  if st.ws = some true then
    let st1 :=
      { st with
          transcript := st.transcript ++
            [⟨.student, if caption = "" then "📷" else caption, ts, some imageUrl⟩],
          isThinking := true,
          lastSentType := .image }
    match encoded with
    | some data => (st1, [.send (.imageMsg mimeType data caption mode)])
    | none => ({ st1 with isThinking := false }, [])
  else
    (st, [])

/-- `ws.onmessage`: binary frames go to the playback scheduler; text frames
that fail `JSON.parse` are appended raw as a tutor entry; parsed messages
are dispatched on the branch chain
`status/connected`, `message`, `recap`, `error`, with anything else
ignored.  `clock` is the playback clock at arrival, `ts` the wall-clock
timestamp string. -/
def onmessage (st : SessionState) (frame : InboundFrame) (clock : ℚ) (ts : String) :
    SessionState :=
  match frame with
  | .binary pcm => (scheduleAudioChunk st clock pcm).1
  | .textUnparsable raw =>
      { st with transcript := st.transcript ++ [⟨.tutor, raw, ts, none⟩] }
  | .textParsed msg =>
      match msg with
      | .statusMsg v =>
          if v = "connected" then
            { st with
                status := .connected,
                transcript := st.transcript ++ [⟨.tutor, greeting, ts, none⟩] }
          else st
      | .messageMsg text =>
          { st with
              isThinking := false,
              transcript := st.transcript ++ [⟨.tutor, text, ts, none⟩] }
      | .recapMsg summary =>
          { st with
              isThinking := false,
              transcript := st.transcript ++
                [⟨.tutor, "✓ " ++ summary.getD "Session complete.", ts, none⟩] }
      | .errorMsg v =>
          { st with
              isThinking := false,
              status := .error,
              transcript := st.transcript ++ [⟨.tutor, "⚠ " ++ v, ts, none⟩] }
      | .unknown => st

/-- Every operation of the session, as one event type: an inbound frame,
the two send operations, start/stop of the session, the socket reaching
OPEN, the close/error callbacks, and voice start/stop. -/
inductive SessionEvent
  | inbound (frame : InboundFrame) (clock : ℚ) (ts : String)
  | sendTextEv (text mode ts : String)
  | sendImageEv (caption mode mimeType imageUrl ts : String) (encoded : Option String)
  | startSessionEv
  | stopSessionEv
  | wsOpenedEv
  | wsClosedEv
  | wsErroredEv
  | startVoiceEv (ok : Bool) (clock : ℚ)
  | stopVoiceEv

/-- One step of the session: dispatch an event to the operation that
handles it, returning the new state and the transport actions performed. -/
def step (st : SessionState) : SessionEvent → SessionState × List Action
  | .inbound frame clock ts => (onmessage st frame clock ts, [])
  | .sendTextEv text mode ts => sendText st text mode ts
  | .sendImageEv caption mode mimeType imageUrl ts encoded =>
      sendImage st caption mode mimeType imageUrl ts encoded
  | .startSessionEv => startSession st
  | .stopSessionEv => stopSession st
  | .wsOpenedEv => ({ st with ws := st.ws.map fun _ => true }, [])
  | .wsClosedEv => (onWsClose st, [])
  | .wsErroredEv => (onWsError st, [])
  | .startVoiceEv ok clock => (startVoice st ok clock, [])
  | .stopVoiceEv => (stopVoiceCleanup st, [])

/-- The derived `liveState` memo of the source, as a function of the five
state pieces it reads. -/
def liveState (status : SessionStatus) (isThinking : Bool) (lastSentType : SentType)
    (voiceActive isSpeaking : Bool) : LiveState :=
  if status = .error then .error
  else if status = .connecting then .connecting
  else if status = .connected then
    if isSpeaking then .speaking
    else if voiceActive then .listening
    else if isThinking then (if lastSentType = .image then .seeing else .thinking)
    else .connected
  else .idle

/-- Modelled from the spec: the strict-priority resolution chain as the
claim words it — `error`, then `connecting`, then `speaking` if the
speaking flag is set, then `listening` if capture is active, then
`thinking`/`seeing` if outstanding-reply is set, then `connected`, then
`idle` — with each activity label decided by its flag alone. -/
def liveStatePriority (status : SessionStatus) (isThinking : Bool)
    (lastSentType : SentType) (voiceActive isSpeaking : Bool) : LiveState :=
  if status = .error then .error
  else if status = .connecting then .connecting
  else if isSpeaking then .speaking
  else if voiceActive then .listening
  else if isThinking then (if lastSentType = .image then .seeing else .thinking)
  else if status = .connected then .connected
  else .idle

/-- Modelled from the amended claim: the same strict-priority chain with
the three activity labels gated on the phase being `connected`. -/
def liveStateGated (status : SessionStatus) (isThinking : Bool)
    (lastSentType : SentType) (voiceActive isSpeaking : Bool) : LiveState :=
  if status = .error then .error
  else if status = .connecting then .connecting
  else if status = .connected ∧ isSpeaking = true then .speaking
  else if status = .connected ∧ voiceActive = true then .listening
  else if status = .connected ∧ isThinking = true then
    (if lastSentType = .image then .seeing else .thinking)
  else if status = .connected then .connected
  else .idle

/-- The microphone chunker accumulator: the ordered buffered frames and the
running sample count of `startMicCapture`. -/
structure ChunkerState where
  accumulated : List (List ℚ)
  count : ℕ
deriving DecidableEq

/-- One `processor.onaudioprocess` callback: when the socket is not OPEN
the frame is discarded outright (early return); otherwise the frame is
buffered and counted, and once the running count reaches
`SAMPLES_PER_CHUNK` the whole accumulation is encoded, emitted as one
chunk, and the accumulator is reset.  (The emitted `Int16Array(count)`
filled frame-by-frame equals the encode of the flattened buffer because
`count` always equals the buffered sample total in every reachable
state.) -/
def micProcess (wsOpen : Bool) (st : ChunkerState) (frame : List ℚ) :
    ChunkerState × Option (List ℤ) :=
  if wsOpen = false then
    (st, none)
  else
    let accumulated := st.accumulated ++ [frame]
    let count := st.count + frame.length
    if SAMPLES_PER_CHUNK ≤ count then
      (⟨[], 0⟩, some (encodeList accumulated.flatten))
    else
      (⟨accumulated, count⟩, none)

/-- Feed a list of capture frames to the chunker in order, collecting the
emitted chunks. -/
def micRun (wsOpen : Bool) (st : ChunkerState) : List (List ℚ) → ChunkerState × List (List ℤ)
  | [] => (st, [])
  | f :: rest =>
      let r := micProcess wsOpen st f
      let r2 := micRun wsOpen r.1 rest
      (r2.1, r.2.toList ++ r2.2)

/-- C5 counterexample: at phase `idle` with the speaking flag set, the
claimed strict-priority chain yields `speaking` but the code yields
`idle` — the code gates the activity labels on the `connected` phase. -/
theorem liveState_priority_cx :
    liveStatePriority .idle false .text false true = .speaking ∧
    liveState .idle false .text false true = .idle ∧
    liveStatePriority .idle false .text false true
      ≠ liveState .idle false .text false true := by
  decide

/-- C5 (amended): the derived live-state label is a total function of
(phase, outstanding-reply, capture-active, speaking, last-sent-kind),
resolved by strict priority with the `speaking`/`listening`/
`thinking`-`seeing` labels gated on the phase being `connected`; exactly
one label results for every combination. -/
theorem liveState_gated_priority :
    ∀ (status : SessionStatus) (isThinking : Bool) (lastSentType : SentType)
      (voiceActive isSpeaking : Bool),
      liveState status isThinking lastSentType voiceActive isSpeaking
        = liveStateGated status isThinking lastSentType voiceActive isSpeaking := by
  intro s t l v sp
  cases s <;> cases t <;> cases l <;> cases v <;> cases sp <;> rfl

/-- C7: when the phase is `connected`, an unparsable inbound text frame
appends exactly one tutor entry whose text is the raw frame content and
changes nothing else; in particular the phase stays `connected`. -/
theorem malformed_frame_fallback (st : SessionState) (raw : String)
    (clock : ℚ) (ts : String) (h : st.status = .connected) :
    onmessage st (.textUnparsable raw) clock ts =
      { st with transcript := st.transcript ++ [⟨.tutor, raw, ts, none⟩] } ∧
    (onmessage st (.textUnparsable raw) clock ts).status = .connected := by
  exact ⟨rfl, h⟩

/-- Witness for `malformed_frame_fallback` at a concrete connected state. -/
theorem malformed_frame_fallback_witness :
    ((⟨.connected, [], false, .text, false, false, some true, false, false, 0⟩ :
        SessionState).status = .connected) ∧
    (onmessage ⟨.connected, [], false, .text, false, false, some true, false, false, 0⟩
        (.textUnparsable "not json") 0 "12:00" =
      ⟨.connected, [⟨.tutor, "not json", "12:00", none⟩], false, .text, false, false,
        some true, false, false, 0⟩) :=
  ⟨rfl, (malformed_frame_fallback _ "not json" 0 "12:00" rfl).1⟩

/-- C6: when the socket is open and the asynchronous image encoding fails,
`sendImage` clears the thinking flag, sends nothing, leaves the phase
untouched, and the transcript ends with exactly the one optimistic student
entry appended before encoding. -/
theorem sendImage_encode_failure (st : SessionState)
    (caption mode mimeType imageUrl ts : String) (h : st.ws = some true) :
    sendImage st caption mode mimeType imageUrl ts none =
      ({ st with
          transcript := st.transcript ++
            [⟨.student, if caption = "" then "📷" else caption, ts, some imageUrl⟩],
          isThinking := false,
          lastSentType := .image }, []) := by
  simp [sendImage, h]

/-- Witness for `sendImage_encode_failure` at a concrete open-socket state. -/
theorem sendImage_encode_failure_witness :
    ((⟨.connected, [], false, .text, false, false, some true, false, false, 0⟩ :
        SessionState).ws = some true) ∧
    (sendImage ⟨.connected, [], false, .text, false, false, some true, false, false, 0⟩
        "look" "explain" "image/png" "blob:1" "12:00" none =
      (⟨.connected, [⟨.student, "look", "12:00", some "blob:1"⟩], false, .image,
          false, false, some true, false, false, 0⟩, [])) :=
  ⟨rfl, sendImage_encode_failure _ "look" "explain" "image/png" "blob:1" "12:00" rfl⟩

/-- C10: calling `startSession` while a socket already exists is a complete
no-op: the state is unchanged and no transport action (in particular no
second connection) is performed. -/
theorem startSession_noop (st : SessionState) (h : st.ws.isSome = true) :
    startSession st = (st, []) := by
  simp [startSession, h]

/-- Witness for `startSession_noop` at a concrete state with a socket. -/
theorem startSession_noop_witness :
    ((⟨.connected, [], false, .text, false, false, some true, false, false, 0⟩ :
        SessionState).ws.isSome = true) ∧
    startSession ⟨.connected, [], false, .text, false, false, some true, false, false, 0⟩ =
      (⟨.connected, [], false, .text, false, false, some true, false, false, 0⟩, []) :=
  ⟨rfl, startSession_noop _ rfl⟩

/-- C8 counterexample: with the transport down, the accumulator does not
advance — the running count stays at its old value instead of growing by
the length of the discarded frame, as the claim states. -/
theorem micProcess_transport_down_cx :
    ¬ ((micProcess false ⟨[], 0⟩ [(1 : ℚ) / 2]).1.count
        = (⟨[], 0⟩ : ChunkerState).count + [(1 : ℚ) / 2].length) := by
  decide

/-- C8 (amended): when the transport is not open, a capture frame is
silently discarded — no chunk is emitted and the accumulator is left
entirely unchanged (the frame is neither buffered nor counted), so capture
buffering never grows while the transport is down. -/
theorem micProcess_transport_down (st : ChunkerState) (frame : List ℚ) :
    micProcess false st frame = (st, none) := rfl

/-- C4 counterexample: an inbound `{type:"error"}` frame received while the
phase is `connecting` moves the phase away from `connecting` (to `error`),
contradicting the claim that only `status/connected` changes the phase. -/
theorem connecting_error_cx :
    (onmessage ⟨.connecting, [], false, .text, false, false, some true, false, false, 0⟩
        (.textParsed (.errorMsg "boom")) 0 "12:00").status ≠ .connecting := by
  decide

/-- C4 (amended): while the phase is `connecting`, exactly two inbound
frames change the phase — `{type:"status",value:"connected"}` moves it to
`connected` and `{type:"error",value:string}` moves it to `error`; every
other inbound frame (message, recap, other status values, unknown types,
unparsable text, binary) leaves the phase at `connecting`. -/
theorem connecting_transitions (st : SessionState) (frame : InboundFrame)
    (clock : ℚ) (ts : String) (h : st.status = .connecting) :
    ((onmessage st frame clock ts).status = .connected ↔
        frame = .textParsed (.statusMsg "connected")) ∧
    ((onmessage st frame clock ts).status = .error ↔
        ∃ v, frame = .textParsed (.errorMsg v)) ∧
    (((∀ v, frame ≠ .textParsed (.errorMsg v)) ∧
        frame ≠ .textParsed (.statusMsg "connected")) →
      (onmessage st frame clock ts).status = .connecting) := by
  cases frame with
  | binary pcm =>
      have hs : (onmessage st (.binary pcm) clock ts).status = .connecting := by
        show (scheduleAudioChunk st clock pcm).1.status = .connecting
        unfold scheduleAudioChunk
        split_ifs <;> exact h
      simp [hs]
  | textUnparsable raw =>
      simp [onmessage, h]
  | textParsed msg =>
      cases msg with
      | statusMsg v =>
          by_cases hv : v = "connected"
          · subst hv
            simp [onmessage, h]
          · simp [onmessage, hv, h]
      | messageMsg t =>
          simp [onmessage, h]
      | recapMsg s =>
          simp [onmessage, h]
      | errorMsg v =>
          refine ⟨by simp [onmessage, h], by simp [onmessage], ?_⟩
          rintro ⟨hall, -⟩
          exact absurd rfl (hall v)
      | unknown =>
          simp [onmessage, h]

/-- Witness for `connecting_transitions` at a concrete connecting state fed
an inbound `{type:"message"}` frame. -/
theorem connecting_transitions_witness :
    ((⟨.connecting, [], false, .text, false, false, some true, false, false, 0⟩ :
        SessionState).status = .connecting) ∧
    (onmessage ⟨.connecting, [], false, .text, false, false, some true, false, false, 0⟩
        (.textParsed (.messageMsg "hi")) 0 "12:00").status = .connecting :=
  ⟨rfl,
    (connecting_transitions _ (.textParsed (.messageMsg "hi")) 0 "12:00" rfl).2.2
      ⟨fun v => by simp, by simp⟩⟩

/-- C9: the transcript is append-only — every session operation (inbound
frame handling, sends, start/stop, socket callbacks, voice start/stop)
either leaves the transcript unchanged or appends exactly one entry at the
end. -/
theorem transcript_append_only (st : SessionState) (ev : SessionEvent) :
    (step st ev).1.transcript = st.transcript ∨
    ∃ e, (step st ev).1.transcript = st.transcript ++ [e] := by
  cases ev with
  | inbound frame clock ts =>
      cases frame with
      | binary pcm =>
          left
          show (scheduleAudioChunk st clock pcm).1.transcript = st.transcript
          unfold scheduleAudioChunk
          split_ifs <;> rfl
      | textUnparsable raw => exact Or.inr ⟨_, rfl⟩
      | textParsed msg =>
          cases msg with
          | statusMsg v =>
              by_cases hv : v = "connected"
              · right
                refine ⟨⟨.tutor, greeting, ts, none⟩, ?_⟩
                show (onmessage st (.textParsed (.statusMsg v)) clock ts).transcript = _
                simp [onmessage, hv]
              · left
                show (onmessage st (.textParsed (.statusMsg v)) clock ts).transcript = _
                simp [onmessage, hv]
          | messageMsg t => exact Or.inr ⟨_, rfl⟩
          | recapMsg s => exact Or.inr ⟨_, rfl⟩
          | errorMsg v => exact Or.inr ⟨_, rfl⟩
          | unknown => exact Or.inl rfl
  | sendTextEv text mode ts =>
      by_cases hw : st.ws = some true
      · right
        refine ⟨⟨.student, text, ts, none⟩, ?_⟩
        show (sendText st text mode ts).1.transcript = _
        simp [sendText, hw]
      · left
        show (sendText st text mode ts).1.transcript = _
        simp [sendText, hw]
  | sendImageEv caption mode mimeType imageUrl ts encoded =>
      by_cases hw : st.ws = some true
      · right
        refine ⟨⟨.student, if caption = "" then "📷" else caption, ts, some imageUrl⟩, ?_⟩
        show (sendImage st caption mode mimeType imageUrl ts encoded).1.transcript = _
        cases encoded <;> simp [sendImage, hw]
      · left
        show (sendImage st caption mode mimeType imageUrl ts encoded).1.transcript = _
        simp [sendImage, hw]
  | startSessionEv =>
      left
      show (startSession st).1.transcript = st.transcript
      unfold startSession
      split_ifs <;> rfl
  | stopSessionEv => exact Or.inl rfl
  | wsOpenedEv => exact Or.inl rfl
  | wsClosedEv => exact Or.inl rfl
  | wsErroredEv => exact Or.inl rfl
  | startVoiceEv ok clock =>
      left
      show (startVoice st ok clock).transcript = st.transcript
      unfold startVoice
      split_ifs <;> rfl
  | stopVoiceEv => exact Or.inl rfl

/-- Truncation toward zero moves a rational by strictly less than one. -/
theorem truncQ_abs_sub_lt (q : ℚ) : |((truncQ q : ℤ) : ℚ) - q| < 1 := by
  unfold truncQ
  split_ifs with hq
  · rw [abs_lt]
    constructor
    · linarith [Int.sub_one_lt_floor q]
    · linarith [Int.floor_le q]
  · rw [abs_lt]
    constructor
    · linarith [Int.le_ceil q]
    · linarith [Int.ceil_lt_add_one q]

/-- Truncation of a rational in `[-32767, 32767]` stays in the int16
range. -/
theorem truncQ_range (q : ℚ) (h1 : -32767 ≤ q) (h2 : q ≤ 32767) :
    -32768 ≤ truncQ q ∧ truncQ q ≤ 32767 := by
  unfold truncQ
  split_ifs with hq
  · constructor
    · have := Int.floor_nonneg.mpr hq
      omega
    · have hf : ⌊q⌋ ≤ ⌊(32767 : ℚ)⌋ := Int.floor_le_floor h2
      have : ⌊(32767 : ℚ)⌋ = 32767 := by norm_num
      omega
  · constructor
    · have hc : ⌈(-32767 : ℚ)⌉ ≤ ⌈q⌉ := Int.ceil_le_ceil h1
      have : ⌈(-32767 : ℚ)⌉ = -32767 := by
        rw [show (-32767 : ℚ) = ((-32767 : ℤ) : ℚ) by norm_num, Int.ceil_intCast]
      omega
    · have hc : ⌈q⌉ ≤ ⌈(0 : ℚ)⌉ := Int.ceil_le_ceil (le_of_lt (not_le.mp hq))
      have : ⌈(0 : ℚ)⌉ = 0 := by norm_num
      omega

/-- The int16 wrap is the identity on the int16 range. -/
theorem toInt16_eq_self (n : ℤ) (h1 : -32768 ≤ n) (h2 : n ≤ 32767) :
    toInt16 n = n := by
  unfold toInt16
  have hm : (n + 32768) % 65536 = n + 32768 :=
    Int.emod_eq_of_lt (by omega) (by omega)
  omega

/-- C3 counterexample: at the in-range input `x = 9/10` the round-trip
error is `3/81920`, which exceeds the claimed `1/32768` bound (the encoder
scales by 32767 but the decoder divides by 32768). -/
theorem pcm_roundtrip_cx :
    ¬ (|decodeSample (encodeSample (9 / 10)) - 9 / 10| ≤ 1 / 32768) := by
  intro hle
  have h1 : max (-1 : ℚ) (min 1 (9 / 10)) = 9 / 10 := by norm_num
  have h2 : truncQ (9 / 10 * 32767) = 29490 := by
    unfold truncQ
    rw [if_pos (by norm_num)]
    rw [Int.floor_eq_iff]
    norm_num
  have h3 : encodeSample (9 / 10) = 29490 := by
    unfold encodeSample toInt16
    rw [h1, h2]
    decide
  rw [h3] at hle
  have h5 : decodeSample 29490 = 14745 / 16384 := by
    unfold decodeSample
    norm_num
  rw [h5] at hle
  rw [abs_of_nonpos (by norm_num)] at hle
  norm_num at hle

/-- C3 (amended): for every sample `x` in `[-1,1]`, decoding the encoded
value differs from `x` by at most `2/32768 = 1/16384`; encode and decode
are pure functions of their input, hence deterministic. -/
theorem pcm_roundtrip_bound (x : ℚ) (h1 : -1 ≤ x) (h2 : x ≤ 1) :
    |decodeSample (encodeSample x) - x| ≤ 1 / 16384 := by
  have hclamp : max (-1) (min 1 x) = x := by
    rw [min_eq_right h2, max_eq_right h1]
  unfold encodeSample decodeSample
  rw [hclamp]
  have hr : -32768 ≤ truncQ (x * 32767) ∧ truncQ (x * 32767) ≤ 32767 := by
    apply truncQ_range <;> linarith
  rw [toInt16_eq_self _ hr.1 hr.2]
  have htr := truncQ_abs_sub_lt (x * 32767)
  rw [abs_lt] at htr
  have e : ((truncQ (x * 32767) : ℤ) : ℚ) / 32768 - x
      = (((truncQ (x * 32767) : ℤ) : ℚ) - 32768 * x) / 32768 := by
    ring
  rw [abs_le, e]
  constructor <;> linarith [htr.1, htr.2]

/-- Witness for `pcm_roundtrip_bound` at `x = 1/2`. -/
theorem pcm_roundtrip_bound_witness :
    (-1 ≤ (1 / 2 : ℚ)) ∧ ((1 / 2 : ℚ) ≤ 1) ∧
    |decodeSample (encodeSample (1 / 2)) - 1 / 2| ≤ 1 / 16384 :=
  ⟨by norm_num, by norm_num, pcm_roundtrip_bound (1 / 2) (by norm_num) (by norm_num)⟩

/-- Unfolding of one open-transport chunker step that emits. -/
theorem micProcess_open_emit (st : ChunkerState) (f : List ℚ)
    (h : SAMPLES_PER_CHUNK ≤ st.count + f.length) :
    micProcess true st f = (⟨[], 0⟩, some (encodeList (st.accumulated ++ [f]).flatten)) := by
  simp [micProcess, h]

/-- Unfolding of one open-transport chunker step that only buffers. -/
theorem micProcess_open_buffer (st : ChunkerState) (f : List ℚ)
    (h : ¬ SAMPLES_PER_CHUNK ≤ st.count + f.length) :
    micProcess true st f = (⟨st.accumulated ++ [f], st.count + f.length⟩, none) := by
  simp [micProcess, h]

/-- Chunker run invariant: starting from any state whose count matches its
buffered total, the count stays in sync, a sub-threshold count stays
sub-threshold, every emitted chunk holds at least `SAMPLES_PER_CHUNK`
samples, and the emitted chunks followed by the encoded final buffer are
exactly the encoded initial buffer followed by the encoded input. -/
theorem micRun_inv (fs : List (List ℚ)) : ∀ st : ChunkerState,
    st.count = st.accumulated.flatten.length →
    ((micRun true st fs).1.count = (micRun true st fs).1.accumulated.flatten.length) ∧
    (st.count < SAMPLES_PER_CHUNK → (micRun true st fs).1.count < SAMPLES_PER_CHUNK) ∧
    (∀ c ∈ (micRun true st fs).2, SAMPLES_PER_CHUNK ≤ c.length) ∧
    ((micRun true st fs).2.flatten ++ encodeList (micRun true st fs).1.accumulated.flatten
      = encodeList st.accumulated.flatten ++ encodeList fs.flatten) := by
  induction fs with
  | nil =>
      intro st hwf
      exact ⟨hwf, fun h => h, by simp [micRun], by simp [micRun, encodeList]⟩
  | cons f rest ih =>
      intro st hwf
      by_cases hcge : SAMPLES_PER_CHUNK ≤ st.count + f.length
      · have hstep := micProcess_open_emit st f hcge
        have hrun : micRun true st (f :: rest)
            = ((micRun true ⟨[], 0⟩ rest).1,
               encodeList (st.accumulated ++ [f]).flatten :: (micRun true ⟨[], 0⟩ rest).2) := by
          simp [micRun, hstep]
        obtain ⟨ih1, ih2, ih3, ih4⟩ := ih ⟨[], 0⟩ rfl
        rw [hrun]
        refine ⟨ih1, fun _ => ih2 (by norm_num [SAMPLES_PER_CHUNK, MIC_SAMPLE_RATE]), ?_, ?_⟩
        · intro c hcmem
          rcases List.mem_cons.mp hcmem with hceq | hcm
          · subst hceq
            simp only [encodeList, List.length_map, List.flatten_append,
              List.flatten_cons, List.flatten_nil, List.length_append,
              List.append_nil]
            omega
          · exact ih3 c hcm
        · simp only [List.flatten_cons, List.append_assoc]
          rw [ih4]
          simp [encodeList, List.flatten_append]
      · have hstep := micProcess_open_buffer st f hcge
        have hrun : micRun true st (f :: rest)
            = ((micRun true ⟨st.accumulated ++ [f], st.count + f.length⟩ rest).1,
               (micRun true ⟨st.accumulated ++ [f], st.count + f.length⟩ rest).2) := by
          simp [micRun, hstep]
        have hwf1 : (⟨st.accumulated ++ [f], st.count + f.length⟩ : ChunkerState).count
            = (⟨st.accumulated ++ [f], st.count + f.length⟩ : ChunkerState).accumulated.flatten.length := by
          simp only [List.flatten_append, List.flatten_cons, List.flatten_nil,
            List.append_nil, List.length_append]
          omega
        obtain ⟨ih1, ih2, ih3, ih4⟩ := ih _ hwf1
        rw [hrun]
        refine ⟨ih1, fun _ => ih2 (by simpa using Nat.lt_of_not_le hcge), ih3, ?_⟩
        rw [ih4]
        simp [encodeList, List.flatten_append]

/-- Chunks that are all at least `m` long flatten to at least `m` times as
many samples. -/
theorem flatten_length_lower (m : ℕ) : ∀ l : List (List ℤ),
    (∀ c ∈ l, m ≤ c.length) → m * l.length ≤ l.flatten.length := by
  intro l
  induction l with
  | nil => intro _; simp
  | cons c cs ih =>
      intro h
      have h1 := h c (List.mem_cons_self c cs)
      have h2 := ih fun d hd => h d (List.mem_cons_of_mem c hd)
      simp only [List.flatten_cons, List.length_append, List.length_cons, Nat.mul_succ]
      omega

/-- C2 counterexample: a single input frame of 3200 samples (transport
open) makes the chunker emit one chunk of 3200 samples, not
`floor(3200 / 1600) = 2` chunks as the claim states. -/
theorem micRun_chunk_count_cx :
    ¬ ((micRun true ⟨[], 0⟩ [List.replicate 3200 (0 : ℚ)]).2.length
        = ([List.replicate 3200 (0 : ℚ)] : List (List ℚ)).flatten.length
            / SAMPLES_PER_CHUNK) := by
  have key : ∀ f : List ℚ, SAMPLES_PER_CHUNK ≤ f.length →
      (micRun true ⟨[], 0⟩ [f]).2.length = 1 := by
    intro f hf
    have hp : SAMPLES_PER_CHUNK ≤ (⟨[], 0⟩ : ChunkerState).count + f.length := by
      simpa using hf
    simp [micRun, micProcess_open_emit ⟨[], 0⟩ f hp]
  have hone := key (List.replicate 3200 (0 : ℚ))
    (by norm_num [SAMPLES_PER_CHUNK, MIC_SAMPLE_RATE])
  rw [hone]
  norm_num [SAMPLES_PER_CHUNK, MIC_SAMPLE_RATE]

/-- C2 (amended): feeding any sequence of capture frames to the chunker
with the transport open, it emits at most `floor(N / 1600)` chunks (where
`N` is the total sample count), each emitted chunk holds at least 1600
samples, the remaining buffered partial holds fewer than 1600, and no
sample is dropped: the emitted chunks followed by the encoding of the
buffered partial equal the encoding of the concatenated input. -/
theorem micChunker_amended (fs : List (List ℚ)) :
    ((micRun true ⟨[], 0⟩ fs).2.length ≤ fs.flatten.length / SAMPLES_PER_CHUNK) ∧
    (∀ c ∈ (micRun true ⟨[], 0⟩ fs).2, SAMPLES_PER_CHUNK ≤ c.length) ∧
    ((micRun true ⟨[], 0⟩ fs).1.accumulated.flatten.length < SAMPLES_PER_CHUNK) ∧
    ((micRun true ⟨[], 0⟩ fs).2.flatten
        ++ encodeList (micRun true ⟨[], 0⟩ fs).1.accumulated.flatten
      = encodeList fs.flatten) := by
  obtain ⟨h1, h2, h3, h4⟩ := micRun_inv fs ⟨[], 0⟩ rfl
  have h4c : (micRun true ⟨[], 0⟩ fs).2.flatten
      ++ encodeList (micRun true ⟨[], 0⟩ fs).1.accumulated.flatten
      = encodeList fs.flatten := by
    simpa [encodeList] using h4
  have hcnt : (micRun true ⟨[], 0⟩ fs).1.count < SAMPLES_PER_CHUNK :=
    h2 (by norm_num [SAMPLES_PER_CHUNK, MIC_SAMPLE_RATE])
  refine ⟨?_, h3, by omega, h4c⟩
  have hlow := flatten_length_lower SAMPLES_PER_CHUNK _ h3
  have hlen : (micRun true ⟨[], 0⟩ fs).2.flatten.length ≤ fs.flatten.length := by
    have hcong := congrArg List.length h4c
    simp only [List.length_append, encodeList, List.length_map] at hcong
    omega
  rw [Nat.le_div_iff_mul_le (by norm_num [SAMPLES_PER_CHUNK, MIC_SAMPLE_RATE])]
  calc (micRun true ⟨[], 0⟩ fs).2.length * SAMPLES_PER_CHUNK
      = SAMPLES_PER_CHUNK * (micRun true ⟨[], 0⟩ fs).2.length := by ring
    _ ≤ (micRun true ⟨[], 0⟩ fs).2.flatten.length := hlow
    _ ≤ fs.flatten.length := hlen

/-- Unfolding of one scheduler call while a playback context exists. -/
theorem scheduleAudioChunk_ctx (st : SessionState) (clock : ℚ) (pcm : List ℤ)
    (h : st.playbackCtx = true) :
    scheduleAudioChunk st clock pcm =
      ({ st with
          isSpeaking := true,
          nextPlayTime := max clock st.nextPlayTime + chunkDurationSeconds pcm.length },
       some (max clock st.nextPlayTime)) := by
  simp [scheduleAudioChunk, h, chunkDurationSeconds]

/-- While a playback context exists, a scheduler run produces exactly the
`startsFrom` start times and preserves the context. -/
theorem scheduleRun_starts (chunks : List (ℚ × List ℤ)) : ∀ st : SessionState,
    st.playbackCtx = true →
    (scheduleRun st chunks).2 = startsFrom st.nextPlayTime chunks ∧
    (scheduleRun st chunks).1.playbackCtx = true := by
  induction chunks with
  | nil => intro st h; exact ⟨rfl, h⟩
  | cons head rest ih =>
      intro st h
      obtain ⟨c, pcm⟩ := head
      have hstep := scheduleAudioChunk_ctx st c pcm h
      have hctx1 : ({ st with
          isSpeaking := true,
          nextPlayTime := max c st.nextPlayTime + chunkDurationSeconds pcm.length } :
            SessionState).playbackCtx = true := h
      obtain ⟨ih1, ih2⟩ := ih _ hctx1
      refine ⟨?_, ?_⟩
      · show (scheduleRun st ((c, pcm) :: rest)).2 = _
        simp [scheduleRun, hstep, startsFrom, ih1]
      · show (scheduleRun st ((c, pcm) :: rest)).1.playbackCtx = true
        simp [scheduleRun, hstep, ih2]

/-- `startsFrom` yields one start time per chunk. -/
theorem startsFrom_length : ∀ (chunks : List (ℚ × List ℤ)) (next : ℚ),
    (startsFrom next chunks).length = chunks.length := by
  intro chunks
  induction chunks with
  | nil => intro next; rfl
  | cons head rest ih =>
      intro next
      obtain ⟨c, p⟩ := head
      simp [startsFrom, ih]

/-- Adjacent `startsFrom` start times satisfy the scheduling recurrence:
the next start is the arrival clock maxed with the previous start plus the
previous duration. -/
theorem startsFrom_adjacent : ∀ (chunks : List (ℚ × List ℤ)) (next : ℚ) (i : ℕ)
    (a b : ℚ) (c d : ℚ × List ℤ),
    (startsFrom next chunks)[i]? = some a →
    (startsFrom next chunks)[i + 1]? = some b →
    chunks[i]? = some c → chunks[i + 1]? = some d →
    b = max d.1 (a + chunkDurationSeconds c.2.length) := by
  intro chunks
  induction chunks with
  | nil =>
      intro next i a b c d ha hb hc hd
      simp [startsFrom] at ha
  | cons head rest ih =>
      intro next i a b c d ha hb hc hd
      obtain ⟨c1, p1⟩ := head
      cases i with
      | zero =>
          simp only [startsFrom, List.getElem?_cons_zero, Option.some_inj] at ha hc
          cases rest with
          | nil =>
              simp [startsFrom] at hb
          | cons head2 rest2 =>
              obtain ⟨c2, p2⟩ := head2
              simp only [startsFrom, List.getElem?_cons_succ,
                List.getElem?_cons_zero, Option.some_inj] at hb hd
              subst ha hb hc hd
              rfl
      | succ j =>
          simp only [startsFrom, List.getElem?_cons_succ] at ha hb hc hd
          exact ih _ j a b c d ha hb hc hd

/-- C1: while a playback context exists, every scheduled chunk starts at
`max(clock, nextPlayTime)` and leaves `nextPlayTime` at that start plus
`sampleCount / 24000`; consequently over any fed sequence each start is at
least the previous start plus the previous duration, with equality
whenever the next chunk arrives no later than that instant. -/
theorem scheduleRun_nonoverlap_gapless (st0 : SessionState)
    (chunks : List (ℚ × List ℤ)) (h : st0.playbackCtx = true) :
    ((scheduleRun st0 chunks).2.length = chunks.length) ∧
    (∀ (st : SessionState) (clock : ℚ) (pcm : List ℤ), st.playbackCtx = true →
        (scheduleAudioChunk st clock pcm).2 = some (max clock st.nextPlayTime) ∧
        (scheduleAudioChunk st clock pcm).1.nextPlayTime
          = max clock st.nextPlayTime + chunkDurationSeconds pcm.length) ∧
    (∀ (i : ℕ) (a b : ℚ) (c d : ℚ × List ℤ),
        (scheduleRun st0 chunks).2[i]? = some a →
        (scheduleRun st0 chunks).2[i + 1]? = some b →
        chunks[i]? = some c → chunks[i + 1]? = some d →
        (a + chunkDurationSeconds c.2.length ≤ b ∧
         (d.1 ≤ a + chunkDurationSeconds c.2.length →
            b = a + chunkDurationSeconds c.2.length))) := by
  obtain ⟨hs, _⟩ := scheduleRun_starts chunks st0 h
  refine ⟨by rw [hs]; exact startsFrom_length chunks st0.nextPlayTime, ?_, ?_⟩
  · intro st clock pcm hp
    rw [scheduleAudioChunk_ctx st clock pcm hp]
    exact ⟨rfl, rfl⟩
  · intro i a b c d ha hb hc hd
    rw [hs] at ha hb
    have hab := startsFrom_adjacent chunks st0.nextPlayTime i a b c d ha hb hc hd
    constructor
    · rw [hab]
      exact le_max_right _ _
    · intro hle
      rw [hab]
      exact max_eq_right hle

/-- Witness for `scheduleRun_nonoverlap_gapless` at a concrete state with
a playback context, fed two one-sample chunks. -/
theorem scheduleRun_nonoverlap_gapless_witness :
    ((⟨.connected, [], false, .text, false, false, some true, true, true, 0⟩ :
        SessionState).playbackCtx = true) ∧
    ((scheduleRun
        (⟨.connected, [], false, .text, false, false, some true, true, true, 0⟩ :
          SessionState)
        [((0 : ℚ), [(0 : ℤ)]), ((1 : ℚ), [(0 : ℤ)])]).2.length
      = [((0 : ℚ), [(0 : ℤ)]), ((1 : ℚ), [(0 : ℤ)])].length) :=
  ⟨rfl, (scheduleRun_nonoverlap_gapless _ _ rfl).1⟩

end FaheemLive
